import Mathlib

/-!
Verification of the TriggerMesh CI-trigger gateway against its specification.

The development shallowly embeds the Go sources: Go strings become lists of
characters, the Jenkins client and trigger become pure functions over the
outcomes of their HTTP calls, the audit ledger becomes a list of rows, and
`time.Time` values become an instant paired with a zone offset. Each claim of
the specification is stated and settled as a theorem about these definitions.
-/

namespace TriggerMesh

/-- Go strings are modelled as lists of characters. Every string the gateway
validates is ASCII, where Go's byte length and the character count coincide. -/
abbrev Str := List Char

/-- Go strings.HasPrefix: `hasPre p s` is true when `p` is a prefix of `s`. -/
def hasPre : Str → Str → Bool
  | [], _ => true
  | _ :: _, [] => false
  | p :: ps, c :: cs => p == c && hasPre ps cs

/-- Go strings.TrimPrefix: removes `p` from the front of `s` when present,
otherwise returns `s` unchanged. -/
def dropPre (p s : Str) : Str := if hasPre p s then s.drop p.length else s

/-- Go strings.TrimSpace, modelled for the ASCII whitespace characters
(space, tab, newline, carriage return) via `Char.isWhitespace`. -/
def trimSpace (s : Str) : Str :=
  ((s.dropWhile Char.isWhitespace).reverse.dropWhile Char.isWhitespace).reverse

/-- Go strings.Trim with a cut set consisting of the single character `c`. -/
def trimChar (c : Char) (s : Str) : Str :=
  ((s.dropWhile (· == c)).reverse.dropWhile (· == c)).reverse

/-- Go strings.Split on a single-character separator: the (possibly empty)
fields between occurrences of `sep`; the result is never the empty list. -/
def splitOnChar (sep : Char) : Str → List Str
  | [] => [[]]
  | c :: cs =>
    let rest := splitOnChar sep cs
    if c == sep then [] :: rest
    else
      match rest with
      | s :: ss => (c :: s) :: ss
      | [] => [[c]]

/-- Go strings.Contains: `containsSub sub s` is true when `sub` occurs as a
contiguous substring of `s`. -/
def containsSub (sub : Str) : Str → Bool
  | [] => hasPre sub []
  | c :: cs => hasPre sub (c :: cs) || containsSub sub cs

/-! ## Jenkins client: sanitized error mapping (client.go, formatJenkinsError) -/

/-- Sanitized message of formatJenkinsError for HTTP 401. -/
def msgUnauthorized : Str := "authentication failed: invalid credentials".toList

/-- Sanitized message of formatJenkinsError for HTTP 403. -/
def msgForbidden : Str := "access denied: insufficient permissions".toList

/-- Sanitized message of formatJenkinsError for HTTP 404. -/
def msgNotFound : Str := "resource not found".toList

/-- Sanitized message of formatJenkinsError for HTTP 400. -/
def msgBadRequest : Str := "invalid request".toList

/-- Sanitized message of formatJenkinsError for HTTP 500, 502 and 503. -/
def msgUpstream : Str := "jenkins server error: please try again later".toList

/-- Sanitized message of formatJenkinsError for every other status. -/
def msgGeneric : Str := "jenkins api request failed".toList

/-- Embedding of formatJenkinsError (internal/engine/jenkins/client.go): maps a
Jenkins response status code and raw response body to a sanitized error
message. The switch covers 401, 403, 404, 400 and the three listed server
statuses 500, 502, 503; everything else falls to the generic message. -/
def formatJenkinsError (statusCode : Nat) (responseBody : Str) : Str :=
  if statusCode = 401 then msgUnauthorized
  else if statusCode = 403 then msgForbidden
  else if statusCode = 404 then msgNotFound
  else if statusCode = 400 then msgBadRequest
  else if statusCode = 500 ∨ statusCode = 502 ∨ statusCode = 503 then msgUpstream
  else msgGeneric

/-! ## Handler validation (handlers/jenkins.go, JenkinsHandler.TriggerJenkinsBuild) -/

/-- Character class of jobNameRegex: ASCII letters, digits, underscore,
forward slash, hyphen and space. -/
def jobNameChar (c : Char) : Bool :=
  c.isAlpha || c.isDigit || c == '_' || c == '/' || c == '-' || c == ' '

/-- Embedding of jobNameRegex, the anchored pattern of one or more characters
of the allowed class: the name is non-empty and every character is allowed. -/
def jobNameMatch (s : Str) : Bool := !s.isEmpty && s.all jobNameChar

/-- Character class of a parameter-key segment: ASCII letters, digits,
underscore and hyphen. -/
def paramKeyChar (c : Char) : Bool := c.isAlpha || c.isDigit || c == '_' || c == '-'

mutual

/-- Embedding of parameterKeyRegex at a segment boundary: the remaining input
must begin with a non-empty run of segment characters. -/
def paramKeySeg : Str → Bool
  | [] => false
  | c :: cs => paramKeyChar c && paramKeyTail cs

/-- Embedding of parameterKeyRegex inside a segment: further segment
characters, the end of the key, or a dot opening a fresh segment. -/
def paramKeyTail : Str → Bool
  | [] => true
  | c :: cs => if c == '.' then paramKeySeg cs else paramKeyChar c && paramKeyTail cs

end

/-- Embedding of parameterKeyRegex: segments of letters, digits, underscore
and hyphen joined by single dots, anchored at both ends. -/
def parameterKeyMatch (s : Str) : Bool := paramKeySeg s

/-- Embedding of the job-name checks of JenkinsHandler.TriggerJenkinsBuild, in
source order: an empty, over-long or pattern-violating name is rejected with
the corresponding user-facing message. -/
def validateJobName (job : Str) : Option Str :=
  if job.isEmpty then some "Job name is required".toList
  else if 255 < job.length then
    some "Job name exceeds maximum length of 255 characters".toList
  else if !jobNameMatch job then
    some "Invalid job name format: only alphanumeric characters, underscores, hyphens, slashes, and spaces are allowed".toList
  else none

/-- Embedding of the per-entry parameter checks of
JenkinsHandler.TriggerJenkinsBuild, in source order: empty key, key length,
key pattern, the redundant leading/trailing/consecutive-dot checks, value
length. The source interpolates the offending key into the messages; the
quotation is elided here. -/
def validateParamEntry (key value : Str) : Option Str :=
  if key.isEmpty then some "Parameter key cannot be empty".toList
  else if 255 < key.length then
    some "Parameter key exceeds maximum length of 255 characters".toList
  else if !parameterKeyMatch key then
    some "Invalid parameter key format: only alphanumeric characters, underscores, hyphens, and dots are allowed".toList
  else if hasPre ['.'] key || hasPre ['.'] key.reverse || containsSub "..".toList key then
    some "Invalid parameter key format: dots cannot be leading, trailing, or consecutive".toList
  else if 10240 < value.length then
    some "Parameter value exceeds maximum length of 10KB".toList
  else none

/-- Sequential check of the parameter entries: the first failing entry
determines the message. -/
def validateEntries : List (Str × Str) → Option Str
  | [] => none
  | (k, v) :: rest =>
    match validateParamEntry k v with
    | some m => some m
    | none => validateEntries rest

/-- Embedding of the parameter-map checks of
JenkinsHandler.TriggerJenkinsBuild: a nil map skips validation; a non-nil map
is bounded to 100 entries and every entry must pass validateParamEntry. Map
entries are modelled as an association list in iteration order; acceptance
does not depend on the order. -/
def validateParameters : Option (List (Str × Str)) → Option Str
  | none => none
  | some ps =>
    if 100 < ps.length then some "Maximum 100 parameters allowed".toList
    else validateEntries ps

/-! ## Jenkins trigger (Trigger.TriggerBuild) -/

/-- Embedding of engine.BuildResult. -/
structure BuildResult where
  success : Bool
  message : Str
  buildID : Str := []
  buildURL : Str := []
deriving Repr, DecidableEq

/-- Outcome of Trigger.TriggerBuild up to the point where an HTTP call would
be made: either a failure BuildResult with an error (the trigger's own
validation rejected the job name), or the chosen dispatch path and whether it
is the parameterized form. -/
inductive TriggerStep where
  | rejected (result : BuildResult) (err : Str)
  | dispatch (parameterized : Bool) (path : Str)
deriving Repr, DecidableEq

/-- Go net/url.PathEscape, modelled for the characters that can reach it after
validation (ASCII letters, digits, underscore, hyphen and space): the space
escapes to %20 and the others, all unreserved, pass through unchanged. -/
def pathEscape (s : Str) : Str :=
  s.foldr (fun c acc => if c == ' ' then "%20".toList ++ acc else c :: acc) []

/-- Embedding of the validation and path selection of Trigger.TriggerBuild
(jenkins trigger): an empty name or a name containing a dot-dot or a forward
slash is rejected with a failure result before any outbound call; otherwise
the path is /job/NAME/build, or /job/NAME/buildWithParameters when parameters
are present. -/
def triggerBuildStep (jobName : Str) (params : List (Str × Str)) : TriggerStep :=
  if jobName.isEmpty then
    .rejected ⟨false, "Job name cannot be empty".toList, [], []⟩
      "job name cannot be empty".toList
  else if containsSub "..".toList jobName || containsSub "/".toList jobName then
    .rejected ⟨false, "Invalid job name format".toList, [], []⟩
      ("invalid job name format: ".toList ++ jobName)
  else if params.length ≠ 0 then
    .dispatch true ("/job/".toList ++ pathEscape jobName ++ "/buildWithParameters".toList)
  else
    .dispatch false ("/job/".toList ++ pathEscape jobName ++ "/build".toList)

/-- Embedding of Trigger.TriggerBuild given the outcome of the client call
(doBuildRequest or doParameterizedRequest, an error or a build ID and URL):
on a client error the failure result and the error are returned; on success
the success result carries the extracted build identity. -/
def triggerBuild (jobName : Str) (params : List (Str × Str))
    (dispatchOutcome : Except Str (Str × Str)) : BuildResult × Option Str :=
  match triggerBuildStep jobName params with
  | .rejected res err => (res, some err)
  | .dispatch _ _ =>
    match dispatchOutcome with
    | .error e =>
      (⟨false, "Failed to trigger Jenkins build: ".toList ++ e, [], []⟩, some e)
    | .ok (buildID, buildURL) =>
      (⟨true, "Successfully triggered Jenkins build for job ".toList ++ jobName,
        buildID, buildURL⟩, none)

/-! ## Trigger pipeline and handler response -/

/-- Outcome of the trigger path through handler validation and
Trigger.TriggerBuild, stopping where an outbound call to Jenkins would be
made. -/
inductive TriggerPathStep where
  | badRequest (msg : Str)
  | rejectedByTrigger (result : BuildResult) (err : Str)
  | dispatch (parameterized : Bool) (path : Str)
deriving Repr, DecidableEq

/-- Composition of the handler validation (validateJobName,
validateParameters) with the pre-dispatch portion of Trigger.TriggerBuild. A
handler validation failure is an HTTP 400 issued before the engine is called;
a rejection inside the trigger also precedes any outbound call but is
reported by the handler as HTTP 500. The handler passes a nil parameter map
to the engine, whose length Go takes as zero, modelled by the empty list. -/
def triggerPathStep (job : Str) (params : Option (List (Str × Str))) : TriggerPathStep :=
  match validateJobName job with
  | some m => .badRequest m
  | none =>
    match validateParameters params with
    | some m => .badRequest m
    | none =>
      match triggerBuildStep job (params.getD []) with
      | .rejected res err => .rejectedByTrigger res err
      | .dispatch p path => .dispatch p path

/-- Predicate for the HTTP 400 outcome of the trigger path. -/
def TriggerPathStep.isBadRequest : TriggerPathStep → Bool
  | .badRequest _ => true
  | _ => false

/-- Predicate for the outcome where the build is dispatched to Jenkins. -/
def TriggerPathStep.isDispatch : TriggerPathStep → Bool
  | .dispatch _ _ => true
  | _ => false

/-- HTTP response written by the trigger handler: the status code with either
an error object or an encoded BuildResult as body. -/
inductive HandlerResponse where
  | errorBody (status : Nat) (msg : Str)
  | resultBody (status : Nat) (result : BuildResult)
deriving Repr, DecidableEq

/-- Audit entry as assembled by the trigger handler; the fields that do not
reflect the outcome (timestamp, api key, method, path, parameter JSON) are
elided. -/
structure AuditOutcome where
  status : Nat
  result : Str
  errorText : Str
deriving Repr, DecidableEq

/-- Embedding of JenkinsHandler.TriggerJenkinsBuild: validation, the engine
call (whose client outcome is the dispatchOutcome argument), the audit-ledger
insert whose success is the insertOk argument, and the HTTP response. The
insert result is only logged in the source, so the constructed response never
consults insertOk. Returns the response together with the audit entry handed
to the ledger, none when validation failed before the engine call. -/
def handleTrigger (job : Str) (params : Option (List (Str × Str)))
    (dispatchOutcome : Except Str (Str × Str)) (insertOk : Bool) :
    HandlerResponse × Option AuditOutcome :=
  match validateJobName job with
  | some m => (.errorBody 400 m, none)
  | none =>
    match validateParameters params with
    | some m => (.errorBody 400 m, none)
    | none =>
      match triggerBuild job (params.getD []) dispatchOutcome with
      | (result, some e) => (.resultBody 500 result, some ⟨500, "failed".toList, e⟩)
      | (result, none) => (.resultBody 200 result, some ⟨200, "success".toList, []⟩)

/-! ## Jenkins client: outbound build requests (doBuildRequest,
doParameterizedRequest) -/

/-- Set semantics shared by url.Values.Set and http.Header.Set: setting a key
replaces an existing entry, otherwise appends one. -/
def setKV (kvs : List (Str × Str)) (k v : Str) : List (Str × Str) :=
  if kvs.any (fun p => p.1 == k) then kvs.map (fun p => if p.1 == k then (k, v) else p)
  else kvs ++ [(k, v)]

/-- Form fields and headers of an outbound Jenkins build request. The
Authorization header, identical on every request, is elided. -/
structure OutboundRequest where
  formFields : List (Str × Str)
  headers : List (Str × Str)
deriving Repr, DecidableEq

/-- Outcome of Client.getCrumb: none models a fetch failure (non-200 status,
network error or malformed JSON); some (field, value) models success, where
getCrumb has already defaulted an empty field name to Jenkins-Crumb. -/
abbrev CrumbOutcome := Option (Str × Str)

/-- Embedding of the request construction of Client.doBuildRequest: the form
holds the mandatory json field and, when the crumb fetch succeeded with a
non-empty field and value, the crumb; the headers hold the content type and
the same crumb under the same condition. -/
def doBuildRequestForm (crumb : CrumbOutcome) : OutboundRequest :=
  let form := setKV [] "json".toList "\x7b\x7d".toList
  let form :=
    match crumb with
    | some (f, v) => if !f.isEmpty && !v.isEmpty then setKV form f v else form
    | none => form
  let headers := setKV [] "Content-Type".toList "application/x-www-form-urlencoded".toList
  let headers :=
    match crumb with
    | some (f, v) => if !f.isEmpty && !v.isEmpty then setKV headers f v else headers
    | none => headers
  ⟨form, headers⟩

/-- Embedding of the request construction of Client.doParameterizedRequest:
the form holds exactly the build parameters; the crumb, when fetched
successfully with a non-empty field and value, is set as a header only. -/
def doParameterizedRequestForm (params : List (Str × Str)) (crumb : CrumbOutcome) :
    OutboundRequest :=
  let form := params.foldl (fun acc p => setKV acc p.1 p.2) []
  let headers := setKV [] "Content-Type".toList "application/x-www-form-urlencoded".toList
  let headers :=
    match crumb with
    | some (f, v) => if !f.isEmpty && !v.isEmpty then setKV headers f v else headers
    | none => headers
  ⟨form, headers⟩

/-! ## Jenkins client: build-identity extraction (Client.extractBuildInfo) -/

/-- Path component of Go net/url.Parse for an absolute http or https URL,
modelled for URLs free of percent-escapes and control characters (the only
inputs on which Parse fails or rewrites the path): everything from the first
slash after the authority up to the first question mark or hash. -/
def absoluteURLPath (s : Str) : Str :=
  let afterScheme := if hasPre "http://".toList s then s.drop 7 else s.drop 8
  (afterScheme.dropWhile (fun c => !(c == '/'))).takeWhile
    (fun c => !(c == '?') && !(c == '#'))

/-- Path part of a Location as Client.extractBuildInfo derives it: the URL
path for an absolute http or https Location, the raw string otherwise. -/
def locationPathPart (location : Str) : Str :=
  if hasPre "http://".toList location || hasPre "https://".toList location then
    absoluteURLPath location
  else location

/-- Embedding of Client.extractBuildInfo: derives the build ID and build URL
from the Location response header, falling back to a job-root URL computed
from the request path when the header is absent. baseURL models the client's
configured base URL. The absolute-URL branch is modelled for Locations free
of percent-escapes and control characters. -/
def extractBuildInfo (baseURL location buildPath : Str) : Str × Str :=
  if location.isEmpty then
    match splitOnChar '/' (dropPre "/job/".toList buildPath) with
    | jobName :: _ => ([], baseURL ++ "/job/".toList ++ jobName ++ "/".toList)
    | [] => ([], [])
  else
    match splitOnChar '/' (trimChar '/' (locationPathPart location)) with
    | seg0 :: jobName :: buildNumber :: _ =>
      if seg0 = "job".toList then
        (jobName ++ "/".toList ++ buildNumber,
         baseURL ++ "/job/".toList ++ jobName ++ "/".toList ++ buildNumber ++ "/".toList)
      else ([], [])
    | _ => ([], [])

/-- Build-identity extraction as the specification words it: the Location
header, absolute or relative, is parsed as a URL and its path split into
segments; the shape job NAME NUMBER yields the identity, anything else yields
empty results. Defined from the specification text, to be compared with
extractBuildInfo: it differs from the source in that a relative reference is
also treated as a URL, so its query or fragment suffix is not part of the
path. -/
def extractBuildInfoSpec (baseURL location buildPath : Str) : Str × Str :=
  if location.isEmpty then
    match splitOnChar '/' (dropPre "/job/".toList buildPath) with
    | jobName :: _ => ([], baseURL ++ "/job/".toList ++ jobName ++ "/".toList)
    | [] => ([], [])
  else
    let pathPart :=
      if hasPre "http://".toList location || hasPre "https://".toList location then
        absoluteURLPath location
      else location.takeWhile (fun c => !(c == '?') && !(c == '#'))
    match splitOnChar '/' (trimChar '/' pathPart) with
    | seg0 :: jobName :: buildNumber :: _ =>
      if seg0 = "job".toList then
        (jobName ++ "/".toList ++ buildNumber,
         baseURL ++ "/job/".toList ++ jobName ++ "/".toList ++ buildNumber ++ "/".toList)
      else ([], [])
    | _ => ([], [])

/-! ## Request-id middleware (middleware/requestid.go) -/

/-- Hexadecimal digit character as produced by Go encoding/hex (lower case). -/
def hexDigit (n : Nat) : Char := if n < 10 then Char.ofNat (48 + n) else Char.ofNat (87 + n)

/-- Go hex.EncodeToString over a list of byte values. -/
def hexEncode (bytes : List Nat) : Str :=
  bytes.foldr (fun b acc => hexDigit (b / 16) :: hexDigit (b % 16) :: acc) []

/-- Embedding of generateRequestID: when the secure-random read succeeds the
id is the hex encoding of the 16 random bytes; on failure it is the string
req-TIMESTAMP-PID-RANDOM built from the nanosecond timestamp, the process id
and an insecure random integer. -/
def generateRequestID (randomBytes : Option (List Nat))
    (nanoTimestamp pid insecureRandom : Nat) : Str :=
  match randomBytes with
  | some bs => hexEncode bs
  | none =>
    "req-".toList ++ (toString nanoTimestamp).toList ++ "-".toList
      ++ (toString pid).toList ++ "-".toList ++ (toString insecureRandom).toList

/-- Result of RequestIDMiddleware for one request: the id attached to the
request context and the id set on the X-Request-ID response header. -/
structure RequestIDOutcome where
  contextID : Str
  responseHeaderID : Str
deriving Repr, DecidableEq

/-- Embedding of RequestIDMiddleware: the X-Request-ID header value is used
verbatim when it is not the empty string, otherwise the generated id is used;
the chosen id goes to both the request context and the response header. An
empty headerValue models an absent header, since Go's Header.Get returns the
empty string for a missing header. -/
def requestIDMiddleware (headerValue generated : Str) : RequestIDOutcome :=
  let requestID := if headerValue.isEmpty then generated else headerValue
  ⟨requestID, requestID⟩

/-! ## API-key authentication (auth middleware) -/

/-- Embedding of GetAPIKey: the candidate key is the Authorization header with
one leading Bearer prefix removed; an absent or empty header yields the empty
candidate. -/
def getAPIKey (authHeader : Str) : Str :=
  if !authHeader.isEmpty then dropPre "Bearer ".toList authHeader else []

/-- Embedding of AuthMiddleware.ValidateAPIKey: strips one leading Bearer
prefix and surrounding whitespace from the candidate and tests membership in
the configured key set. -/
def validateAPIKey (keys : List Str) (apiKey : Str) : Bool :=
  keys.contains (trimSpace (dropPre "Bearer ".toList apiKey))

/-- Authentication decision of the middleware chain: extraction via GetAPIKey
followed by ValidateAPIKey. -/
def authDecision (keys : List Str) (authHeader : Str) : Bool :=
  validateAPIKey keys (getAPIKey authHeader)

/-- Candidate string whose membership in the key set the middleware tests for
a given Authorization header. -/
def authCandidate (authHeader : Str) : Str :=
  trimSpace (dropPre "Bearer ".toList (getAPIKey authHeader))

/-! ## Audit ledger (storage: InsertAuditLog, GetAuditLogs) -/

/-- Row of the audit_logs table: the AUTOINCREMENT id and the recorded entry.
The entry payload does not affect ordering or pagination and stays a type
parameter. -/
structure AuditRow (α : Type) where
  id : Nat
  entry : α
deriving Repr, DecidableEq

/-- Embedding of InsertAuditLog's row creation: SQLite AUTOINCREMENT assigns
an id one greater than the highest ever used; on an append-only table grown
from empty this is the row count plus one. -/
def insertAuditLog {α : Type} (ledger : List (AuditRow α)) (e : α) : List (AuditRow α) :=
  ledger ++ [⟨ledger.length + 1, e⟩]

/-- Ledger obtained by inserting the given entries, in order, into an empty
table. -/
def auditLedgerOf {α : Type} (entries : List α) : List (AuditRow α) :=
  entries.foldl insertAuditLog []

/-- Insertion into a list sorted by descending id. -/
def insertDescById {α : Type} (x : AuditRow α) : List (AuditRow α) → List (AuditRow α)
  | [] => [x]
  | y :: ys => if y.id ≤ x.id then x :: y :: ys else y :: insertDescById x ys

/-- ORDER BY id DESC of the audit query, realized as an insertion sort. -/
def sortByIdDesc {α : Type} : List (AuditRow α) → List (AuditRow α)
  | [] => []
  | x :: xs => insertDescById x (sortByIdDesc xs)

/-- Rows created by consecutive inserts: the entries paired with ids counting
up from n plus one. -/
def rowsFrom {α : Type} (n : Nat) : List α → List (AuditRow α)
  | [] => []
  | e :: es => ⟨n + 1, e⟩ :: rowsFrom (n + 1) es

/-- Embedding of GetAuditLogs: SELECT the rows in descending id order,
skipping the first offset rows and returning at most limit rows. -/
def getAuditLogs {α : Type} (ledger : List (AuditRow α)) (limit offset : Nat) :
    List (AuditRow α) :=
  ((sortByIdDesc ledger).drop offset).take limit

/-! ## Audit timestamps (InsertAuditLog formatting, GetAuditLogs parsing) -/

/-- Go time.Time, modelled as the absolute instant in nanoseconds since the
epoch together with the zone offset in seconds east of UTC carried by the
value. The wall-clock reading rendered by Format is the instant shifted by
the offset. -/
structure GoTime where
  unixNano : Int
  offsetSec : Int
deriving Repr, DecidableEq

/-- Wall-clock nanosecond reading of a time value: what Format renders. -/
def wallNano (t : GoTime) : Int := t.unixNano + t.offsetSec * 1000000000

/-- Microsecond wall-clock count encoded by the stored string: InsertAuditLog
formats the timestamp with the layout 2006-01-02 15:04:05.000000, the
wall-clock reading truncated to whole microseconds with no zone designator.
The stored string is in bijection with this count for representable dates, so
the count stands for the string. -/
def storedWallMicro (t : GoTime) : Int := Int.ediv (wallNano t) 1000

/-- Embedding of the timestamp parse in GetAuditLogs: time.Parse with the
layout 2006-01-02 15:04:05.000000 interprets the stored wall-clock reading in
UTC, producing a value at that instant with a zero offset. -/
def parseStoredTimestamp (micro : Int) : GoTime := ⟨micro * 1000, 0⟩

/-- Round trip of a timestamp through InsertAuditLog and GetAuditLogs. -/
def timestampRoundTrip (t : GoTime) : GoTime := parseStoredTimestamp (storedWallMicro t)

/-- Instant of a time value truncated to whole microseconds. -/
def truncMicroNano (t : GoTime) : Int := Int.ediv t.unixNano 1000 * 1000

/-! ## Helper lemmas -/

theorem hexEncode_length (bs : List Nat) : (hexEncode bs).length = 2 * bs.length := by
  induction bs with
  | nil => rfl
  | cons b bs ih => simp only [hexEncode, List.foldr] at ih ⊢; simp [ih]; omega

theorem mem_setKV_self (kvs : List (Str × Str)) (k v : Str) : (k, v) ∈ setKV kvs k v := by
  unfold setKV
  split
  · next h =>
    obtain ⟨p, hp, hpk⟩ := List.any_eq_true.mp h
    exact List.mem_map.mpr ⟨p, hp, by simp [hpk]⟩
  · exact List.mem_append_right _ (List.mem_singleton.mpr rfl)

theorem mem_setKV_cases {kvs : List (Str × Str)} {k v : Str} {p : Str × Str}
    (h : p ∈ setKV kvs k v) : p ∈ kvs ∨ p.1 = k := by
  unfold setKV at h
  split at h
  · obtain ⟨q, hq, hqe⟩ := List.mem_map.mp h
    by_cases hk : (q.1 == k) = true
    · right; simp [hk] at hqe; simp [← hqe]
    · left; simp [hk] at hqe; rwa [← hqe]
  · rcases List.mem_append.mp h with h | h
    · exact Or.inl h
    · right; rw [List.mem_singleton.mp h]

theorem foldl_setKV_keys {params : List (Str × Str)} {acc : List (Str × Str)}
    {p : Str × Str} (h : p ∈ params.foldl (fun a q => setKV a q.1 q.2) acc) :
    p ∈ acc ∨ ∃ q ∈ params, p.1 = q.1 := by
  induction params generalizing acc with
  | nil => exact Or.inl h
  | cons q qs ih =>
    rcases ih h with h' | ⟨r, hr, hpr⟩
    · rcases mem_setKV_cases h' with h'' | h''
      · exact Or.inl h''
      · exact Or.inr ⟨q, List.mem_cons_self _ _, h''⟩
    · exact Or.inr ⟨r, List.mem_cons_of_mem _ hr, hpr⟩

theorem hasPre_length {p s : Str} (h : hasPre p s = true) : p.length ≤ s.length := by
  induction p generalizing s with
  | nil => simp
  | cons c cs ih =>
    cases s with
    | nil => simp [hasPre] at h
    | cons d ds =>
      simp only [hasPre, Bool.and_eq_true] at h
      simpa using Nat.succ_le_succ (ih h.2)

theorem hasPre_append (p s : Str) : hasPre p (p ++ s) = true := by
  induction p with
  | nil => rfl
  | cons c cs ih => simp [hasPre, ih]

theorem dropPre_append (p s : Str) : dropPre p (p ++ s) = s := by
  unfold dropPre
  rw [hasPre_append]
  simp

theorem dropPre_not {p s : Str} (h : hasPre p s = false) : dropPre p s = s := by
  unfold dropPre
  rw [h]
  simp

theorem dropPre_length_le (p s : Str) : (dropPre p s).length ≤ s.length := by
  unfold dropPre
  split
  · simp
  · exact Nat.le_refl _

theorem trimSpace_length_le (s : Str) : (trimSpace s).length ≤ s.length := by
  unfold trimSpace
  rw [List.length_reverse]
  refine le_trans (List.dropWhile_sublist _).length_le ?_
  rw [List.length_reverse]
  exact (List.dropWhile_sublist _).length_le

theorem authCandidate_eq (header : Str) :
    authCandidate header =
      trimSpace (dropPre "Bearer ".toList (dropPre "Bearer ".toList header)) := by
  cases header with
  | nil => decide
  | cons c cs => rfl

theorem validateParamEntry_none_iff (k v : Str) :
    validateParamEntry k v = none ↔
      (k ≠ [] ∧ k.length ≤ 255 ∧ parameterKeyMatch k = true ∧
        hasPre ['.'] k = false ∧ hasPre ['.'] k.reverse = false ∧
        containsSub "..".toList k = false ∧ v.length ≤ 10240) := by
  unfold validateParamEntry
  split_ifs with h1 h2 h3 h4 h5 <;>
    simp_all [List.isEmpty_iff, not_or]
  intro a b c
  simp_all

theorem validateEntries_none_iff (ps : List (Str × Str)) :
    validateEntries ps = none ↔ ∀ kv ∈ ps, validateParamEntry kv.1 kv.2 = none := by
  induction ps with
  | nil => simp [validateEntries]
  | cons kv rest ih =>
    rcases kv with ⟨k, v⟩
    unfold validateEntries
    rcases h : validateParamEntry k v with _ | m
    · simp [h, ih]
    · simp [h]

theorem foldl_insertAuditLog {α : Type} (es : List α) (L : List (AuditRow α)) :
    es.foldl insertAuditLog L = L ++ rowsFrom L.length es := by
  induction es generalizing L with
  | nil => simp [rowsFrom]
  | cons e es ih =>
    show es.foldl insertAuditLog (insertAuditLog L e) = _
    rw [ih]
    simp [insertAuditLog, rowsFrom, List.length_append]

theorem auditLedgerOf_eq {α : Type} (es : List α) : auditLedgerOf es = rowsFrom 0 es := by
  simpa using foldl_insertAuditLog es []

theorem rowsFrom_id_gt {α : Type} (es : List α) (n : Nat) :
    ∀ r ∈ rowsFrom n es, n < r.id := by
  induction es generalizing n with
  | nil => simp [rowsFrom]
  | cons e es ih =>
    intro r hr
    simp only [rowsFrom, List.mem_cons] at hr
    rcases hr with rfl | hr
    · simp
    · have := ih (n + 1) r hr
      omega

theorem rowsFrom_length {α : Type} (es : List α) (n : Nat) :
    (rowsFrom n es).length = es.length := by
  induction es generalizing n with
  | nil => rfl
  | cons e es ih => simp [rowsFrom, ih]

theorem rowsFrom_map_entry {α : Type} (es : List α) (n : Nat) :
    (rowsFrom n es).map AuditRow.entry = es := by
  induction es generalizing n with
  | nil => rfl
  | cons e es ih => simp [rowsFrom, ih]

theorem rowsFrom_pairwise {α : Type} (es : List α) (n : Nat) :
    List.Pairwise (fun a b => a.id < b.id) (rowsFrom n es) := by
  induction es generalizing n with
  | nil => exact List.Pairwise.nil
  | cons e es ih =>
    refine List.Pairwise.cons ?_ (ih (n + 1))
    intro y hy
    have := rowsFrom_id_gt es (n + 1) y hy
    simp only [rowsFrom]
    omega

theorem insertDescById_small {α : Type} (x : AuditRow α) (l : List (AuditRow α))
    (h : ∀ y ∈ l, x.id < y.id) : insertDescById x l = l ++ [x] := by
  induction l with
  | nil => rfl
  | cons y ys ih =>
    unfold insertDescById
    have hy : x.id < y.id := h y (List.mem_cons_self _ _)
    rw [if_neg (by omega)]
    rw [ih (fun z hz => h z (List.mem_cons_of_mem _ hz))]
    simp

theorem sortByIdDesc_rowsFrom {α : Type} (es : List α) (n : Nat) :
    sortByIdDesc (rowsFrom n es) = (rowsFrom n es).reverse := by
  induction es generalizing n with
  | nil => rfl
  | cons e es ih =>
    show insertDescById ⟨n + 1, e⟩ (sortByIdDesc (rowsFrom (n + 1) es)) = _
    rw [ih]
    rw [insertDescById_small]
    · simp [rowsFrom]
    · intro y hy
      exact rowsFrom_id_gt es (n + 1) y (List.mem_reverse.mp hy)

theorem mem_of_hasPre {p s : Str} {c : Char} (h : hasPre p s = true) (hc : c ∈ p) :
    c ∈ s := by
  induction p generalizing s with
  | nil => exact absurd hc (List.not_mem_nil c)
  | cons d ds ih =>
    cases s with
    | nil => simp [hasPre] at h
    | cons e es =>
      simp only [hasPre, Bool.and_eq_true, beq_iff_eq] at h
      rcases List.mem_cons.mp hc with rfl | hc'
      · rw [h.1]
        exact List.mem_cons_self _ _
      · exact List.mem_cons_of_mem _ (ih h.2 hc')

theorem mem_of_containsSub {sub s : Str} {c : Char} (h : containsSub sub s = true)
    (hc : c ∈ sub) : c ∈ s := by
  induction s with
  | nil =>
    cases sub with
    | nil => exact absurd hc (List.not_mem_nil c)
    | cons d ds => simp [containsSub, hasPre] at h
  | cons e es ih =>
    simp only [containsSub, Bool.or_eq_true] at h
    rcases h with h | h
    · exact mem_of_hasPre h hc
    · exact List.mem_cons_of_mem _ (ih h)

theorem containsSub_singleton (a : Char) (s : Str) :
    containsSub [a] s = true ↔ a ∈ s := by
  induction s with
  | nil => simp [containsSub, hasPre]
  | cons e es ih =>
    simp [containsSub, hasPre, ih, List.mem_cons]

theorem validateJobName_none_iff (job : Str) :
    validateJobName job = none ↔ (jobNameMatch job = true ∧ job.length ≤ 255) := by
  unfold validateJobName
  split_ifs with h1 h2 h3 <;> simp_all [jobNameMatch, List.isEmpty_iff]

theorem splitOnChar_ne_nil (sep : Char) (s : Str) : splitOnChar sep s ≠ [] := by
  cases s with
  | nil => simp [splitOnChar]
  | cons c cs =>
    simp only [splitOnChar]
    split
    · simp
    · split <;> simp

/-! ## Theorems for the claims -/

/-- C10: audit timestamps round-trip through InsertAuditLog and GetAuditLogs
with the zone discarded and the precision truncated to microseconds: the
listed value is in UTC, its instant is the inserted instant truncated to
whole microseconds and shifted by the original zone offset, and it equals
the truncated inserted instant exactly when the inserted timestamp was in
UTC. -/
theorem auditTimestamp_roundTrip (t : GoTime) :
    (timestampRoundTrip t).offsetSec = 0 ∧
    (timestampRoundTrip t).unixNano = truncMicroNano t + t.offsetSec * 1000000000 ∧
    ((timestampRoundTrip t).unixNano = truncMicroNano t ↔ t.offsetSec = 0) := by
  have key : (timestampRoundTrip t).unixNano =
      truncMicroNano t + t.offsetSec * 1000000000 := by
    show Int.ediv (t.unixNano + t.offsetSec * 1000000000) 1000 * 1000 =
      Int.ediv t.unixNano 1000 * 1000 + t.offsetSec * 1000000000
    have h : t.unixNano + t.offsetSec * 1000000000 =
        t.unixNano + t.offsetSec * 1000000 * 1000 := by ring
    have hed : Int.ediv (t.unixNano + t.offsetSec * 1000000 * 1000) 1000 =
        Int.ediv t.unixNano 1000 + t.offsetSec * 1000000 :=
      Int.add_mul_ediv_right _ _ (by norm_num)
    rw [h, hed]; ring
  refine ⟨rfl, key, ?_⟩
  rw [key]
  constructor
  · intro h; omega
  · intro h; rw [h]; ring

/-- C2 (amended): for every Jenkins response status outside the range 200 to
299 the client returns one of six fixed sanitized messages, chosen from the
status code alone so the raw response body can never appear in it:
unauthorized for 401, forbidden for 403, not-found for 404, bad-request for
400, upstream-unavailable exactly for 500, 502 and 503, and the generic
failure for every other status, including the remaining 5xx statuses. -/
theorem formatJenkinsError_sanitized (statusCode : Nat) (responseBody : Str)
    (hout : statusCode < 200 ∨ 300 ≤ statusCode) :
    formatJenkinsError statusCode responseBody = formatJenkinsError statusCode [] ∧
    formatJenkinsError statusCode responseBody ∈
      [msgUnauthorized, msgForbidden, msgNotFound, msgBadRequest, msgUpstream, msgGeneric] ∧
    (statusCode = 401 → formatJenkinsError statusCode responseBody = msgUnauthorized) ∧
    (statusCode = 403 → formatJenkinsError statusCode responseBody = msgForbidden) ∧
    (statusCode = 404 → formatJenkinsError statusCode responseBody = msgNotFound) ∧
    (statusCode = 400 → formatJenkinsError statusCode responseBody = msgBadRequest) ∧
    (statusCode = 500 ∨ statusCode = 502 ∨ statusCode = 503 →
      formatJenkinsError statusCode responseBody = msgUpstream) ∧
    (statusCode ∉ ([401, 403, 404, 400, 500, 502, 503] : List Nat) →
      formatJenkinsError statusCode responseBody = msgGeneric) := by
  unfold formatJenkinsError
  split_ifs with h1 h2 h3 h4 h5 <;> simp_all

/-- C2 witness: at status 504 with a non-empty body the message is
independent of the body. -/
theorem formatJenkinsError_sanitized_witness :
    (504 < 200 ∨ 300 ≤ 504) ∧
    formatJenkinsError 504 "boom".toList = formatJenkinsError 504 [] :=
  ⟨Or.inr (by decide),
    (formatJenkinsError_sanitized 504 "boom".toList (Or.inr (by decide))).1⟩

/-- C2 counterexample: 504 is a 5xx status, yet the client maps it to the
generic failure message, not to the upstream-unavailable category. -/
theorem formatJenkinsError_5xx_counterexample :
    (500 ≤ 504 ∧ 504 < 600) ∧
    formatJenkinsError 504 "Gateway Timeout".toList = msgGeneric ∧
    formatJenkinsError 504 "Gateway Timeout".toList ≠ msgUpstream :=
  ⟨by decide, by decide, by decide⟩

/-- C6: for every trigger request that passes validation and reaches the
engine, the HTTP status and body depend only on the trigger outcome, 200 with
the success result when TriggerBuild returns no error and 500 with the
failure result when it does, and they are identical whether the audit-ledger
insert succeeds or fails. -/
theorem handleTrigger_response_ignores_insert (job : Str)
    (params : Option (List (Str × Str))) (dispatchOutcome : Except Str (Str × Str))
    (ins1 ins2 : Bool)
    (hv : validateJobName job = none ∧ validateParameters params = none) :
    (handleTrigger job params dispatchOutcome ins1).1 =
      (handleTrigger job params dispatchOutcome ins2).1 ∧
    (handleTrigger job params dispatchOutcome ins1).1 =
      HandlerResponse.resultBody
        (if (triggerBuild job (params.getD []) dispatchOutcome).2.isSome then 500 else 200)
        (triggerBuild job (params.getD []) dispatchOutcome).1 := by
  obtain ⟨h1, h2⟩ := hv
  unfold handleTrigger
  rw [h1, h2]
  rcases h : triggerBuild job (params.getD []) dispatchOutcome with ⟨result, e⟩
  cases e <;> simp

/-- C6 witness: a concrete request whose response is the same under insert
success and insert failure. -/
theorem handleTrigger_response_ignores_insert_witness :
    (validateJobName "demo".toList = none ∧ validateParameters none = none) ∧
    (handleTrigger "demo".toList none (.ok ("demo/7".toList, "http://j/job/demo/7/".toList))
        true).1 =
      (handleTrigger "demo".toList none (.ok ("demo/7".toList, "http://j/job/demo/7/".toList))
        false).1 :=
  ⟨⟨by decide, by decide⟩,
    (handleTrigger_response_ignores_insert "demo".toList none
      (.ok ("demo/7".toList, "http://j/job/demo/7/".toList)) true false
      ⟨by decide, by decide⟩).1⟩

/-- C7 (amended): when the crumb fetch succeeds with a non-empty field name
and value, the non-parameterized dispatch attaches the crumb both as a form
field and as a request header, while the parameterized dispatch attaches it
as a request header only: its form holds nothing but the build parameters,
so a crumb field absent from the parameters never appears in it. -/
theorem crumbAttachment (f v : Str) (params : List (Str × Str))
    (hf : f ≠ []) (hv : v ≠ []) :
    (f, v) ∈ (doBuildRequestForm (some (f, v))).formFields ∧
    (f, v) ∈ (doBuildRequestForm (some (f, v))).headers ∧
    (f, v) ∈ (doParameterizedRequestForm params (some (f, v))).headers ∧
    ((∀ q ∈ params, q.1 ≠ f) →
      ∀ p ∈ (doParameterizedRequestForm params (some (f, v))).formFields, p.1 ≠ f) := by
  have hfe : f.isEmpty = false := by
    cases f with
    | nil => exact absurd rfl hf
    | cons c cs => rfl
  have hve : v.isEmpty = false := by
    cases v with
    | nil => exact absurd rfl hv
    | cons c cs => rfl
  refine ⟨?_, ?_, ?_, ?_⟩
  · show (f, v) ∈
      (if !f.isEmpty && !v.isEmpty then
        setKV (setKV [] "json".toList "\x7b\x7d".toList) f v
      else setKV [] "json".toList "\x7b\x7d".toList)
    rw [hfe, hve]
    exact mem_setKV_self _ f v
  · show (f, v) ∈
      (if !f.isEmpty && !v.isEmpty then
        setKV (setKV [] "Content-Type".toList "application/x-www-form-urlencoded".toList) f v
      else setKV [] "Content-Type".toList "application/x-www-form-urlencoded".toList)
    rw [hfe, hve]
    exact mem_setKV_self _ f v
  · show (f, v) ∈
      (if !f.isEmpty && !v.isEmpty then
        setKV (setKV [] "Content-Type".toList "application/x-www-form-urlencoded".toList) f v
      else setKV [] "Content-Type".toList "application/x-www-form-urlencoded".toList)
    rw [hfe, hve]
    exact mem_setKV_self _ f v
  · intro hparams p hp
    rcases foldl_setKV_keys hp with h | ⟨q, hq, hpq⟩
    · exact absurd h (List.not_mem_nil p)
    · rw [hpq]; exact hparams q hq

/-- C7 witness: a concrete parameterized request where the crumb appears in
the headers and its field does not appear among the form fields. -/
theorem crumbAttachment_witness :
    ("Jenkins-Crumb".toList ≠ ([] : Str) ∧ "abc".toList ≠ ([] : Str)) ∧
    ("Jenkins-Crumb".toList, "abc".toList) ∈
      (doParameterizedRequestForm [("PARAM".toList, "1".toList)]
        (some ("Jenkins-Crumb".toList, "abc".toList))).headers :=
  ⟨⟨by decide, by decide⟩,
    (crumbAttachment "Jenkins-Crumb".toList "abc".toList [("PARAM".toList, "1".toList)]
      (by decide) (by decide)).2.2.1⟩

/-- C7 counterexample: with a parameter present and a successful crumb fetch
the parameterized dispatch carries the crumb in its headers but not among its
form fields, contradicting the claim that both dispatch forms attach it to
both places. -/
theorem crumbAttachment_counterexample :
    ("Jenkins-Crumb".toList, "abc".toList) ∈
      (doParameterizedRequestForm [("PARAM".toList, "1".toList)]
        (some ("Jenkins-Crumb".toList, "abc".toList))).headers ∧
    ("Jenkins-Crumb".toList, "abc".toList) ∉
      (doParameterizedRequestForm [("PARAM".toList, "1".toList)]
        (some ("Jenkins-Crumb".toList, "abc".toList))).formFields :=
  ⟨by decide, by decide⟩

/-- C4: a supplied parameter map passes validation exactly when it has at
most 100 entries and every entry has a non-empty key of at most 255
characters that matches the dotted-identifier shape (segments of letters,
digits, underscore and hyphen joined by single dots, with no leading,
trailing or consecutive dots) and a value of at most 10240 bytes; any
violating map is rejected with an HTTP 400 before the engine is called, for
every job name that itself passes validation. -/
theorem parameterValidation_characterization (ps : List (Str × Str)) (job : Str)
    (hjob : validateJobName job = none) :
    (validateParameters (some ps) = none ↔
      (ps.length ≤ 100 ∧ ∀ kv ∈ ps, kv.1 ≠ [] ∧ kv.1.length ≤ 255 ∧
        parameterKeyMatch kv.1 = true ∧ hasPre ['.'] kv.1 = false ∧
        hasPre ['.'] kv.1.reverse = false ∧ containsSub "..".toList kv.1 = false ∧
        kv.2.length ≤ 10240)) ∧
    (validateParameters (some ps) ≠ none →
      (triggerPathStep job (some ps)).isBadRequest = true) := by
  constructor
  · have hmain : validateParameters (some ps) = none ↔
        (ps.length ≤ 100 ∧ validateEntries ps = none) := by
      constructor
      · intro h
        by_cases hl : 100 < ps.length
        · simp [validateParameters, hl] at h
        · exact ⟨by omega, by simpa [validateParameters, hl] using h⟩
      · rintro ⟨h1, h2⟩
        simp [validateParameters, Nat.not_lt.mpr h1, h2]
    rw [hmain, validateEntries_none_iff]
    constructor
    · rintro ⟨hlen, hall⟩
      exact ⟨hlen, fun kv hkv => (validateParamEntry_none_iff kv.1 kv.2).mp (hall kv hkv)⟩
    · rintro ⟨hlen, hall⟩
      exact ⟨hlen, fun kv hkv => (validateParamEntry_none_iff kv.1 kv.2).mpr (hall kv hkv)⟩
  · intro hne
    unfold triggerPathStep
    rw [hjob]
    rcases hv : validateParameters (some ps) with _ | m
    · exact absurd hv hne
    · rfl

/-- C4 witness: a concrete passing map and a concrete rejected map under a
valid job name. -/
theorem parameterValidation_characterization_witness :
    validateJobName "demo".toList = none ∧
    validateParameters (some [("env.name".toList, "prod".toList)]) = none ∧
    (validateParameters (some [(".bad".toList, "v".toList)]) ≠ none →
      (triggerPathStep "demo".toList
        (some [(".bad".toList, "v".toList)])).isBadRequest = true) :=
  ⟨by decide, by decide,
    (parameterValidation_characterization [(".bad".toList, "v".toList)] "demo".toList
      (by decide)).2⟩

/-- C5: after inserting N audit entries into an empty ledger, listing with
limit N and offset 0 returns exactly those N entries in strictly descending
id order, and for every k below N the page of the first k followed by the
page of the remaining N-k starting at offset k concatenates to the same
sequence, with no overlap and no gap. -/
theorem auditLedger_pagination {α : Type} (entries : List α) (k : Nat)
    (hk : k < entries.length) :
    getAuditLogs (auditLedgerOf entries) entries.length 0 =
      (auditLedgerOf entries).reverse ∧
    (getAuditLogs (auditLedgerOf entries) entries.length 0).map AuditRow.entry =
      entries.reverse ∧
    List.Pairwise (fun a b => b.id < a.id)
      (getAuditLogs (auditLedgerOf entries) entries.length 0) ∧
    getAuditLogs (auditLedgerOf entries) k 0 ++
        getAuditLogs (auditLedgerOf entries) (entries.length - k) k =
      getAuditLogs (auditLedgerOf entries) entries.length 0 := by
  have hsort : sortByIdDesc (auditLedgerOf entries) = (auditLedgerOf entries).reverse := by
    rw [auditLedgerOf_eq, sortByIdDesc_rowsFrom]
  have hlen : (auditLedgerOf entries).reverse.length = entries.length := by
    rw [List.length_reverse, auditLedgerOf_eq, rowsFrom_length]
  have hfull : getAuditLogs (auditLedgerOf entries) entries.length 0 =
      (auditLedgerOf entries).reverse := by
    unfold getAuditLogs
    rw [hsort, List.drop_zero, ← hlen, List.take_length]
  refine ⟨hfull, ?_, ?_, ?_⟩
  · rw [hfull, auditLedgerOf_eq, List.map_reverse, rowsFrom_map_entry]
  · rw [hfull]
    exact List.pairwise_reverse.mpr (by
      rw [auditLedgerOf_eq]
      exact rowsFrom_pairwise entries 0)
  · unfold getAuditLogs
    rw [hsort, List.drop_zero]
    have hsum : entries.length = k + (entries.length - k) := by omega
    calc List.take k (auditLedgerOf entries).reverse ++
          List.take (entries.length - k) (List.drop k (auditLedgerOf entries).reverse)
        = List.take (k + (entries.length - k)) (auditLedgerOf entries).reverse := by
          rw [List.take_add]
      _ = List.take entries.length (auditLedgerOf entries).reverse := by
          rw [← hsum]

/-- C5 witness: three inserted entries, listed whole and as two pages split
at one. -/
theorem auditLedger_pagination_witness :
    (1 < ([10, 20, 30] : List Nat).length) ∧
    getAuditLogs (auditLedgerOf ([10, 20, 30] : List Nat)) 1 0 ++
        getAuditLogs (auditLedgerOf ([10, 20, 30] : List Nat)) 2 1 =
      getAuditLogs (auditLedgerOf ([10, 20, 30] : List Nat)) 3 0 :=
  ⟨by decide, (auditLedger_pagination ([10, 20, 30] : List Nat) 1 (by decide)).2.2.2⟩

/-- C8 (amended): the request-id middleware uses the caller-supplied
X-Request-ID value verbatim whenever it is non-empty, with no whitespace
trimming, so a whitespace-only value is kept as the id; only an absent or
empty header triggers generation, where a successful secure-random read of 16
bytes yields their 32-character lower-case hex encoding; the chosen id is set
on the response header and attached to the request context. -/
theorem requestID_choice (headerValue : Str) (bytes : List Nat)
    (ts pid rnd : Nat) (hb : bytes.length = 16) :
    (headerValue ≠ [] →
      requestIDMiddleware headerValue (generateRequestID (some bytes) ts pid rnd) =
        ⟨headerValue, headerValue⟩) ∧
    (headerValue = [] →
      requestIDMiddleware headerValue (generateRequestID (some bytes) ts pid rnd) =
        ⟨hexEncode bytes, hexEncode bytes⟩) ∧
    (hexEncode bytes).length = 32 := by
  refine ⟨?_, ?_, ?_⟩
  · intro h
    have he : headerValue.isEmpty = false := by
      cases headerValue with
      | nil => exact absurd rfl h
      | cons c cs => rfl
    simp [requestIDMiddleware, he]
  · intro h
    subst h
    rfl
  · rw [hexEncode_length, hb]

/-- C8 witness: concrete instances of both branches of the id choice. -/
theorem requestID_choice_witness :
    ("abc".toList ≠ ([] : Str) ∧
      requestIDMiddleware "abc".toList
          (generateRequestID (some (List.replicate 16 0)) 1 2 3) =
        ⟨"abc".toList, "abc".toList⟩) ∧
    (List.replicate 16 (0 : Nat)).length = 16 :=
  ⟨⟨by decide,
    (requestID_choice "abc".toList (List.replicate 16 0) 1 2 3 (by decide)).1 (by decide)⟩,
    by decide⟩

/-- C9 (amended): the authentication decision is exactly membership, in the
configured key set, of the Authorization header with one leading Bearer
prefix stripped during extraction, a second leading Bearer prefix stripped
during validation, and surrounding whitespace trimmed; consequently for every
configured key k free of surrounding whitespace the header Bearer Bearer k
authenticates, while for a key that begins with Bearer or carries
surrounding whitespace the candidate tested when the key is sent verbatim is
never the key itself. -/
theorem authDecision_characterization (keys : List Str) (header k : Str)
    (hk : k ∈ keys) (hts : trimSpace k = k) :
    (authDecision keys header = keys.contains (authCandidate header)) ∧
    (authCandidate header =
      trimSpace (dropPre "Bearer ".toList (dropPre "Bearer ".toList header))) ∧
    (authDecision keys ("Bearer Bearer ".toList ++ k) = true) ∧
    (∀ kk : Str, hasPre "Bearer ".toList kk = true ∨ trimSpace kk ≠ kk →
      authCandidate kk ≠ kk) := by
  refine ⟨rfl, authCandidate_eq header, ?_, ?_⟩
  · have hsplit : "Bearer Bearer ".toList ++ k =
        "Bearer ".toList ++ ("Bearer ".toList ++ k) := by
      have : "Bearer Bearer ".toList = "Bearer ".toList ++ "Bearer ".toList := by decide
      rw [this, List.append_assoc]
    show validateAPIKey keys (getAPIKey ("Bearer Bearer ".toList ++ k)) = true
    have hne : ("Bearer Bearer ".toList ++ k).isEmpty = false := by
      rw [hsplit]; rfl
    have hget : getAPIKey ("Bearer Bearer ".toList ++ k) = "Bearer ".toList ++ k := by
      unfold getAPIKey
      rw [hne, hsplit]
      simpa using dropPre_append "Bearer ".toList ("Bearer ".toList ++ k)
    unfold validateAPIKey
    rw [hget, dropPre_append, hts]
    exact List.elem_iff.mpr hk
  · intro kk hkk
    by_cases hp : hasPre "Bearer ".toList kk = true
    · intro hEq
      have hlen7 : ("Bearer ".toList : Str).length = 7 := by decide
      have hk7 : 7 ≤ kk.length := hlen7 ▸ hasPre_length hp
      have hdrop : dropPre "Bearer ".toList kk = kk.drop 7 := by
        unfold dropPre
        rw [hp, hlen7]
        simp
      have hclen : (authCandidate kk).length ≤ kk.length - 7 := by
        rw [authCandidate_eq, hdrop]
        refine le_trans (trimSpace_length_le _) ?_
        refine le_trans (dropPre_length_le _ _) ?_
        simp
      rw [hEq] at hclen
      omega
    · have hp' : hasPre "Bearer ".toList kk = false := by
        simpa using hp
      have hts' : trimSpace kk ≠ kk := by
        rcases hkk with h | h
        · exact absurd h hp
        · exact h
      rw [authCandidate_eq, dropPre_not hp', dropPre_not hp']
      exact hts'

/-- C9 witness: for a configured key without surrounding whitespace the
double-Bearer header authenticates. -/
theorem authDecision_characterization_witness :
    ("secretkey".toList ∈ (["secretkey".toList] : List Str) ∧
      trimSpace "secretkey".toList = "secretkey".toList) ∧
    authDecision ["secretkey".toList] ("Bearer Bearer ".toList ++ "secretkey".toList) = true :=
  ⟨⟨by decide, by decide⟩,
    (authDecision_characterization ["secretkey".toList] "ignored".toList
      "secretkey".toList (by decide) (by decide)).2.2.1⟩

/-- C9 counterexample: the configured key consisting of a space and the
letter x is a configured key, yet the double-Bearer header built from it
fails to authenticate, because validation trims the surrounding whitespace
before the membership test. -/
theorem authDecision_counterexample :
    (" x".toList ∈ ([" x".toList] : List Str)) ∧
    authDecision [" x".toList] ("Bearer Bearer ".toList ++ " x".toList) = false :=
  ⟨by decide, by decide⟩

/-- C8 counterexample: a whitespace-only X-Request-ID value is blank after
trimming, yet the middleware checks only for the empty string and keeps the
single-space value as the request id instead of generating a fresh one. -/
theorem requestID_blank_counterexample :
    trimSpace " ".toList = [] ∧
    (requestIDMiddleware " ".toList (hexEncode (List.replicate 16 0))).contextID =
      " ".toList ∧
    (requestIDMiddleware " ".toList (hexEncode (List.replicate 16 0))).contextID ≠
      hexEncode (List.replicate 16 0) :=
  ⟨by decide, by decide, by decide⟩

/-- C1 (amended): job names matching the allowed pattern and the length bound
that contain no forward slash pass both validation layers and proceed to
dispatch; names failing the handler checks (empty, over 255 characters, or
containing a disallowed character) are rejected with HTTP 400 before the
engine is called; folder-qualified names (allowed pattern with a forward
slash) pass the handler validation but are rejected inside
Trigger.TriggerBuild, still before any outbound call, and surface as HTTP
500 rather than 400. -/
theorem triggerPath_jobName (job : Str) (params : Option (List (Str × Str)))
    (hp : validateParameters params = none) :
    (jobNameMatch job = true ∧ job.length ≤ 255 ∧ ¬('/' ∈ job) →
      (triggerPathStep job params).isDispatch = true) ∧
    (¬(jobNameMatch job = true ∧ job.length ≤ 255) →
      (triggerPathStep job params).isBadRequest = true) ∧
    (jobNameMatch job = true ∧ job.length ≤ 255 ∧ '/' ∈ job →
      triggerPathStep job params =
        .rejectedByTrigger ⟨false, "Invalid job name format".toList, [], []⟩
          ("invalid job name format: ".toList ++ job)) := by
  have hchars : jobNameMatch job = true → '.' ∉ job := by
    intro hm hdot
    simp only [jobNameMatch, Bool.and_eq_true, List.all_eq_true] at hm
    have := hm.2 '.' hdot
    simp [jobNameChar] at this
  have hempty : jobNameMatch job = true → job.isEmpty = false := by
    intro hm
    cases job with
    | nil => simp [jobNameMatch] at hm
    | cons c cs => rfl
  have hdd : jobNameMatch job = true → containsSub ['.', '.'] job = false := by
    intro hm
    by_contra h
    have h2 : containsSub ['.', '.'] job = true := by
      simpa using h
    exact hchars hm (mem_of_containsSub h2 (by decide))
  refine ⟨?_, ?_, ?_⟩
  · rintro ⟨hm, hl, hs⟩
    have hslash : containsSub ['/'] job = false := by
      by_contra h
      have h2 : containsSub ['/'] job = true := by simpa using h
      exact hs ((containsSub_singleton '/' job).mp h2)
    simp only [triggerPathStep, (validateJobName_none_iff job).mpr ⟨hm, hl⟩, hp]
    by_cases hc : (params.getD []).length ≠ 0 <;>
      simp [triggerBuildStep, hempty hm, hdd hm, hslash, hc, TriggerPathStep.isDispatch]
  · intro hno
    rcases hv : validateJobName job with _ | m
    · exact absurd ((validateJobName_none_iff job).mp hv) hno
    · simp [triggerPathStep, hv, TriggerPathStep.isBadRequest]
  · rintro ⟨hm, hl, hs⟩
    have hslash : containsSub ['/'] job = true :=
      (containsSub_singleton '/' job).mpr hs
    simp [triggerPathStep, (validateJobName_none_iff job).mpr ⟨hm, hl⟩, hp,
      triggerBuildStep, hempty hm, hdd hm, hslash]

set_option maxRecDepth 8000 in
/-- C1 witness: a name of letters, a digit, a hyphen and a space dispatches;
an over-long name is rejected with 400. -/
theorem triggerPath_jobName_witness :
    validateParameters none = none ∧
    (triggerPathStep "demo job-1".toList none).isDispatch = true ∧
    (triggerPathStep (List.replicate 256 'a') none).isBadRequest = true :=
  ⟨by decide,
    (triggerPath_jobName "demo job-1".toList none (by decide)).1
      ⟨by decide, by decide, by decide⟩,
    (triggerPath_jobName (List.replicate 256 'a') none (by decide)).2.1
      (by decide)⟩

/-- C1 counterexample: the folder-qualified name team/service satisfies the
handler pattern and length checks, yet the trigger path neither dispatches it
nor rejects it with a validation 400: Trigger.TriggerBuild refuses it before
any outbound call. -/
theorem triggerPath_folder_counterexample :
    jobNameMatch "team/service".toList = true ∧
    "team/service".toList.length ≤ 255 ∧
    validateJobName "team/service".toList = none ∧
    (triggerPathStep "team/service".toList none).isDispatch = false ∧
    (triggerPathStep "team/service".toList none).isBadRequest = false :=
  ⟨by decide, by decide, by decide, by decide, by decide⟩

/-- C3 (amended): with no Location header the extraction returns an empty
build ID and the job-root URL derived from the request path, without error; a
non-empty Location is URL-parsed only when absolute (lower-case http or https
scheme), while a relative Location is segmented as the raw string, query and
fragment included; the segment shape job NAME NUMBER yields build ID
NAME/NUMBER with the canonical build URL, and any other shape yields empty
results without error. The spec example holds as stated. -/
theorem extractBuildInfo_algorithm (base location buildPath : Str)
    (name num : Str) (rest : List Str) :
    (location = [] →
      extractBuildInfo base location buildPath =
        ([], base ++ "/job/".toList ++
          (splitOnChar '/' (dropPre "/job/".toList buildPath)).headI ++ "/".toList)) ∧
    (location ≠ [] →
      splitOnChar '/' (trimChar '/' (locationPathPart location)) =
        "job".toList :: name :: num :: rest →
      extractBuildInfo base location buildPath =
        (name ++ "/".toList ++ num,
         base ++ "/job/".toList ++ name ++ "/".toList ++ num ++ "/".toList)) ∧
    (location ≠ [] →
      (∀ n m r, splitOnChar '/' (trimChar '/' (locationPathPart location)) ≠
        "job".toList :: n :: m :: r) →
      extractBuildInfo base location buildPath = ([], [])) ∧
    extractBuildInfo "http://host".toList "http://host/job/acme/42/".toList
        "/job/acme/build".toList =
      ("acme/42".toList, "http://host/job/acme/42/".toList) := by
  refine ⟨?_, ?_, ?_, by decide⟩
  · intro hl
    subst hl
    rcases hsp : splitOnChar '/' (dropPre ['/', 'j', 'o', 'b', '/'] buildPath) with _ | ⟨j, t⟩
    · exact absurd hsp (splitOnChar_ne_nil _ _)
    · simp [extractBuildInfo, hsp]
  · intro hl hsegs
    have hle : location.isEmpty = false := by
      cases location with
      | nil => exact absurd rfl hl
      | cons c cs => rfl
    simp [extractBuildInfo, hle, hsegs]
  · intro hl hshape
    have hle : location.isEmpty = false := by
      cases location with
      | nil => exact absurd rfl hl
      | cons c cs => rfl
    rcases hsp : splitOnChar '/' (trimChar '/' (locationPathPart location)) with
      _ | ⟨s0, _ | ⟨s1, _ | ⟨s2, srest⟩⟩⟩
    · exact absurd hsp (splitOnChar_ne_nil _ _)
    · simp [extractBuildInfo, hle, hsp]
    · simp [extractBuildInfo, hle, hsp]
    · by_cases h0 : s0 = ['j', 'o', 'b']
      · subst h0
        exact absurd hsp (hshape s1 s2 srest)
      · simp [extractBuildInfo, hle, hsp, h0]

/-- C3 witness: both the empty-location fallback and a relative Location of
the regular shape, at concrete inputs. -/
theorem extractBuildInfo_algorithm_witness :
    extractBuildInfo "http://h".toList [] "/job/acme/build".toList =
      ([], "http://h/job/acme/".toList) ∧
    ("/job/a/5/".toList ≠ ([] : Str) ∧
      extractBuildInfo "http://h".toList "/job/a/5/".toList "/job/a/build".toList =
        ("a/5".toList, "http://h/job/a/5/".toList)) :=
  ⟨(extractBuildInfo_algorithm "http://h".toList [] "/job/acme/build".toList
      [] [] []).1 rfl,
    ⟨by decide,
      (extractBuildInfo_algorithm "http://h".toList "/job/a/5/".toList
        "/job/a/build".toList "a".toList "5".toList []).2.1 (by decide) (by decide)⟩⟩

/-- C3 counterexample: the relative Location /job/acme/42?x=1 has the URL
path /job/acme/42, so the claimed algorithm (parse absolute or relative
Locations as URLs) yields acme/42, but extractBuildInfo does not parse
relative Locations and keeps the query suffix inside the build number. -/
theorem extractBuildInfo_relative_counterexample :
    extractBuildInfoSpec "http://host".toList "/job/acme/42?x=1".toList
        "/job/acme/build".toList =
      ("acme/42".toList, "http://host/job/acme/42/".toList) ∧
    extractBuildInfo "http://host".toList "/job/acme/42?x=1".toList
        "/job/acme/build".toList =
      ("acme/42?x=1".toList, "http://host/job/acme/42?x=1/".toList) ∧
    extractBuildInfo "http://host".toList "/job/acme/42?x=1".toList
        "/job/acme/build".toList ≠
      extractBuildInfoSpec "http://host".toList "/job/acme/42?x=1".toList
        "/job/acme/build".toList :=
  ⟨by decide, by decide, by decide⟩

end TriggerMesh
